import Mathlib

set_option maxRecDepth 8000

/-!
Verification development for the visa-bot-poc streaming relay and consumer.

This file shallowly embeds the protocol-critical code of the repository:

* the client-side SSE stream consumer of web/src/App.tsx (`startStream`,
  `stopStream`, `extractTextFromPayload`): byte chunks are decoded by a
  streaming UTF-8 text decoder, appended to a text buffer, split on the
  blank-line delimiter, and each complete frame is trimmed, checked for the
  literal marker at its start, JSON-parsed, and folded into the observable
  state (event log, transcript, final result);
* the server-side extraction helper of server/src/server.ts
  (`extractJsonFromResponse`), the non-streaming endpoint, the schema
  of the structured intake result, and the final SSE frame the streaming
  endpoint writes;
* a JSON value model with a parser and serializer standing in for the
  platform JSON.parse / JSON.stringify.

Modelling conventions:
* JavaScript values are modelled by `JsValue` (with an explicit `undef`
  constructor, since `undefined` and `null` behave differently under
  serialization and the nullish-coalescing operator).
* Numeric JSON literals are modelled as integers; fractional and exponent
  forms are rejected by the parser model (floating point is out of scope).
* Property access on `null`/`undefined` throws in JavaScript; every such
  access in the embedded code sits under a try/catch whose handler is
  modelled explicitly at the corresponding spot.
* All definitions are fuel-free structural recursions or take fuel that is
  instantiated generously, so that every concrete run reduces in the kernel.
-/

/-! ## JavaScript value model -/

mutual
/-- A JavaScript value as observable by the embedded code. `undef` models
the JavaScript `undefined`, distinct from JSON `null`. -/
inductive JsValue : Type where
  | undef : JsValue
  | null : JsValue
  | bool (b : Bool) : JsValue
  | num (n : Int) : JsValue
  | str (s : String) : JsValue
  | arr (elems : JsArr) : JsValue
  | obj (fields : JsObj) : JsValue
/-- An array of JavaScript values (spine made explicit so that mutual
structural recursion over the value tree reduces in the kernel). -/
inductive JsArr : Type where
  | nil : JsArr
  | cons (hd : JsValue) (tl : JsArr) : JsArr
/-- Object fields in insertion order. -/
inductive JsObj : Type where
  | nil : JsObj
  | cons (key : String) (val : JsValue) (tl : JsObj) : JsObj
end

/-- Look up a field; missing fields read as `undefined`. -/
def objFind : JsObj → String → JsValue
  | .nil, _ => .undef
  | .cons k v t, key => if k = key then v else objFind t key

/-- Does the object have the field? -/
def objHas : JsObj → String → Bool
  | .nil, _ => false
  | .cons k _ t, key => if k = key then true else objHas t key

/-- Remove a field (used to model duplicate-key handling of JSON.parse). -/
def objRemove : JsObj → String → JsObj
  | .nil, _ => .nil
  | .cons k v t, key => if k = key then objRemove t key else .cons k v (objRemove t key)

/-- Property access `v.key` for the named (non-index) properties the embedded
code reads. On plain objects it is field lookup; on primitives and arrays the
accessed names are all absent, hence `undefined`. Access on `null`/`undefined`
throws in JavaScript; callers of this model guard that case explicitly, so
here it is total with result `undefined`. Optional-chained access `v?.key`
coincides with this function. -/
def jsGet (v : JsValue) (key : String) : JsValue :=
  match v with
  | .obj fs => objFind fs key
  | _ => (.undef)

/-- Index access `v?.[0]`. -/
def jsIndexZero (v : JsValue) : JsValue :=
  match v with
  | .arr (.cons h _) => h
  | .arr .nil => .undef
  | .obj fs => objFind fs "0"
  | .str s => match s.data with | [] => .undef | c :: _ => .str (String.mk [c])
  | _ => (.undef)

/-- JavaScript truthiness. -/
def jsTruthy (v : JsValue) : Bool :=
  match v with
  | .undef => false
  | .null => false
  | .bool b => b
  | .num n => decide (n ≠ 0)
  | .str s => decide (s ≠ "")
  | .arr _ => true
  | .obj _ => true

/-- Strict equality of a value against a string literal. -/
def jsStrEq (v : JsValue) (s : String) : Bool :=
  match v with
  | .str t => t = s
  | _ => false

/-- Nullishness: the value is null or undefined. -/
def jsIsNullish (v : JsValue) : Bool :=
  match v with
  | .null => true
  | .undef => true
  | _ => false

/-- Is `v` JSON `null`? -/
def jsIsNull (v : JsValue) : Bool :=
  match v with
  | .null => true
  | _ => false

/-- Truthiness together with typeof object, i.e. the guard
`payload && typeof payload === "object"` (arrays and plain objects pass,
`null` is falsy). -/
def jsIsObjectType (v : JsValue) : Bool :=
  match v with
  | .arr _ => true
  | .obj _ => true
  | _ => false

/-- The nullish-coalescing `v ?? null`. -/
def jsNullCoalesce (v : JsValue) : JsValue :=
  match v with
  | .undef => .null
  | .null => .null
  | v' => v'

/-- Collapse an optional result the way the embedded code returns `null`
when no attempt produced a value. -/
def jsValueOfOpt : Option JsValue → JsValue
  | none => .null
  | some v => v

/-! ## JavaScript whitespace, trim, and the frame marker -/

/-- The JavaScript whitespace class used by `String.prototype.trim` and by
the regex `\s` (WhiteSpace plus LineTerminator code points). -/
def jsWhitespaceChar (c : Char) : Bool :=
  c = ' ' || c = '\t' || c = '\n' || c = '\r' || c = '\x0b' || c = '\x0c' ||
  c = '\u00a0' || c = '\u1680' ||
  (decide ('\u2000' ≤ c) && decide (c ≤ '\u200a')) ||
  c = '\u2028' || c = '\u2029' || c = '\u202f' || c = '\u205f' ||
  c = '\u3000' || c = '\ufeff'

/-- The trim method of JavaScript strings. -/
def jsTrim (l : List Char) : List Char :=
  ((l.dropWhile jsWhitespaceChar).reverse.dropWhile jsWhitespaceChar).reverse

/-- The startsWith test for the frame marker. -/
def dataMarked (line : List Char) : Bool :=
  "data:".data.isPrefixOf line

/-- The marker-stripping replace for a line that starts with the marker:
drop the five marker characters and at most one following whitespace
character. -/
def stripDataMarker (line : List Char) : List Char :=
  match line.drop 5 with
  | [] => []
  | c :: rest => if jsWhitespaceChar c then rest else c :: rest

/-! ## JSON.parse model -/

/-- JSON whitespace (as in the JSON grammar used by JSON.parse). -/
def jsonWsChar (c : Char) : Bool :=
  c = ' ' || c = '\t' || c = '\n' || c = '\r'

/-- Skip JSON whitespace. -/
def skipJsonWs : List Char → List Char
  | [] => []
  | c :: rest => if jsonWsChar c then skipJsonWs rest else c :: rest

/-- Value of one hex digit. -/
def hexDigitVal (c : Char) : Option Nat :=
  if '0' ≤ c ∧ c ≤ '9' then some (c.toNat - 48)
  else if 'a' ≤ c ∧ c ≤ 'f' then some (c.toNat - 87)
  else if 'A' ≤ c ∧ c ≤ 'F' then some (c.toNat - 55)
  else none

/-- Single-character JSON string escapes. -/
def escapeCharVal (c : Char) : Option Char :=
  if c = '\x22' then some '\x22'
  else if c = '\\' then some '\\'
  else if c = '/' then some '/'
  else if c = 'b' then some '\x08'
  else if c = 'f' then some '\x0c'
  else if c = 'n' then some '\n'
  else if c = 'r' then some '\r'
  else if c = 't' then some '\t'
  else none

/-- Parse the body of a JSON string after the opening quote, returning the
decoded characters and the input following the closing quote. `\uXXXX`
surrogate pairs are combined; a lone surrogate (not representable as a Lean
scalar value) is modelled as U+FFFD. Raw control characters are rejected as
in the JSON grammar. -/
def parseStringBody : Nat → List Char → Option (List Char × List Char)
  | 0, _ => none
  | _, [] => none
  | fuel + 1, c :: rest =>
    if c = '\x22' then some ([], rest)
    else if c = '\\' then
      match rest with
      | 'u' :: h1 :: h2 :: h3 :: h4 :: rest2 =>
        match hexDigitVal h1, hexDigitVal h2, hexDigitVal h3, hexDigitVal h4 with
        | some a, some b, some c2, some d =>
          let n := a * 4096 + b * 256 + c2 * 16 + d
          if 0xd800 ≤ n ∧ n < 0xdc00 then
            match rest2 with
            | '\\' :: 'u' :: g1 :: g2 :: g3 :: g4 :: rest3 =>
              match hexDigitVal g1, hexDigitVal g2, hexDigitVal g3, hexDigitVal g4 with
              | some e, some f, some g, some h =>
                let m := e * 4096 + f * 256 + g * 16 + h
                if 0xdc00 ≤ m ∧ m < 0xe000 then
                  (parseStringBody fuel rest3).map
                    (fun r => (Char.ofNat (0x10000 + (n - 0xd800) * 1024 + (m - 0xdc00)) :: r.1, r.2))
                else
                  (parseStringBody fuel rest2).map (fun r => ('\ufffd' :: r.1, r.2))
              | _, _, _, _ => (parseStringBody fuel rest2).map (fun r => ('\ufffd' :: r.1, r.2))
            | _ => (parseStringBody fuel rest2).map (fun r => ('\ufffd' :: r.1, r.2))
          else if 0xdc00 ≤ n ∧ n < 0xe000 then
            (parseStringBody fuel rest2).map (fun r => ('\ufffd' :: r.1, r.2))
          else
            (parseStringBody fuel rest2).map (fun r => (Char.ofNat n :: r.1, r.2))
        | _, _, _, _ => none
      | e :: rest2 =>
        match escapeCharVal e with
        | some ec => (parseStringBody fuel rest2).map (fun r => (ec :: r.1, r.2))
        | none => none
      | [] => none
    else if c.toNat < 0x20 then none
    else (parseStringBody fuel rest).map (fun r => (c :: r.1, r.2))

/-- Take a maximal run of decimal digits. -/
def takeDigits : List Char → List Char × List Char
  | [] => ([], [])
  | c :: rest =>
    if c.isDigit then
      let r := takeDigits rest
      (c :: r.1, r.2)
    else ([], c :: rest)

/-- Digits to a natural number. -/
def digitsToNat (ds : List Char) : Nat :=
  ds.foldl (fun a c => a * 10 + (c.toNat - 48)) 0

/-- Parse a JSON number. Integer literals only (see the module comment);
fraction or exponent forms are rejected, as are leading zeros, per the JSON
grammar. -/
def parseNumber (s : List Char) : Option (JsValue × List Char) :=
  let p := match s with
    | '-' :: r => (true, r)
    | _ => (false, s)
  match takeDigits p.2 with
  | ([], _) => none
  | (ds, rest) =>
    if 1 < ds.length ∧ ds.headD '1' = '0' then none
    else
      match rest with
      | '.' :: _ => none
      | 'e' :: _ => none
      | 'E' :: _ => none
      | _ =>
        let n : Int := Int.ofNat (digitsToNat ds)
        some (.num (if p.1 then -n else n), rest)

/-- Insert a parsed object member at the front, with JavaScript duplicate-key
semantics: the first occurrence fixes the position, the last occurrence fixes
the value (the tail `t` holds the members parsed after this one). -/
def objMember (k : String) (v : JsValue) (t : JsObj) : JsObj :=
  if objHas t k then .cons k (objFind t k) (objRemove t k) else .cons k v t

mutual
/-- Fuel-driven JSON value parser (the fuel is instantiated generously in
`parseJson`; it only bounds recursion depth). Accepts exactly the JSON
grammar modulo the integer-only number restriction. -/
def parseValueF : Nat → List Char → Option (JsValue × List Char)
  | 0, _ => none
  | fuel + 1, s =>
    match skipJsonWs s with
    | [] => none
    | c :: rest =>
      if c = 'n' then
        match rest with
        | 'u' :: 'l' :: 'l' :: r => some (.null, r)
        | _ => none
      else if c = 't' then
        match rest with
        | 'r' :: 'u' :: 'e' :: r => some (.bool true, r)
        | _ => none
      else if c = 'f' then
        match rest with
        | 'a' :: 'l' :: 's' :: 'e' :: r => some (.bool false, r)
        | _ => none
      else if c = '\x22' then
        (parseStringBody (rest.length + 1) rest).map (fun r => (.str (String.mk r.1), r.2))
      else if c = '[' then
        match skipJsonWs rest with
        | ']' :: r2 => some (.arr .nil, r2)
        | s2 => (parseArrItems fuel s2).map (fun r => (.arr r.1, r.2))
      else if c = '\x7b' then
        match skipJsonWs rest with
        | '\x7d' :: r2 => some (.obj .nil, r2)
        | s2 => (parseObjItems fuel s2).map (fun r => (.obj r.1, r.2))
      else
        parseNumber (c :: rest)

/-- Parse one or more comma-separated array items followed by `]`. -/
def parseArrItems : Nat → List Char → Option (JsArr × List Char)
  | 0, _ => none
  | fuel + 1, s =>
    match parseValueF fuel s with
    | none => none
    | some (v, r) =>
      match skipJsonWs r with
      | ']' :: r2 => some (.cons v .nil, r2)
      | ',' :: r2 =>
        match parseArrItems fuel r2 with
        | none => none
        | some (tl, r3) => some (.cons v tl, r3)
      | _ => none

/-- Parse one or more comma-separated object members followed by the closing
brace. -/
def parseObjItems : Nat → List Char → Option (JsObj × List Char)
  | 0, _ => none
  | fuel + 1, s =>
    match skipJsonWs s with
    | '\x22' :: r =>
      match parseStringBody (r.length + 1) r with
      | none => none
      | some (kcs, r1) =>
        match skipJsonWs r1 with
        | ':' :: r2 =>
          match parseValueF fuel r2 with
          | none => none
          | some (v, r3) =>
            match skipJsonWs r3 with
            | '\x7d' :: r4 => some (.cons (String.mk kcs) v .nil, r4)
            | ',' :: r4 =>
              match parseObjItems fuel r4 with
              | none => none
              | some (tl, r5) => some (objMember (String.mk kcs) v tl, r5)
            | _ => none
        | _ => none
    | _ => none
end

/-- The JSON.parse model: parse a complete value with nothing but whitespace
left over; `none` models a thrown SyntaxError. -/
def parseJson (s : List Char) : Option JsValue :=
  match parseValueF (2 * s.length + 2) s with
  | none => none
  | some (v, r) =>
    match skipJsonWs r with
    | [] => some v
    | _ => none

/-! ## JSON.stringify model -/

/-- Hex digit character (lowercase). -/
def hexDigitChar (n : Nat) : Char :=
  if n < 10 then Char.ofNat (48 + n) else Char.ofNat (87 + n)

/-- JSON string escaping as performed by JSON.stringify. -/
def escapeJsonChar (c : Char) : List Char :=
  if c = '\x22' then ['\\', '\x22']
  else if c = '\\' then ['\\', '\\']
  else if c = '\x08' then ['\\', 'b']
  else if c = '\x0c' then ['\\', 'f']
  else if c = '\n' then ['\\', 'n']
  else if c = '\r' then ['\\', 'r']
  else if c = '\t' then ['\\', 't']
  else if c.toNat < 0x20 then
    ['\\', 'u', '0', '0', hexDigitChar (c.toNat / 16), hexDigitChar (c.toNat % 16)]
  else [c]

/-- Quote and escape a string. -/
def quoteJson (s : String) : String :=
  String.mk ('\x22' :: s.data.foldr (fun c acc => escapeJsonChar c ++ acc) ['\x22'])

mutual
/-- JSON.stringify: `none` models the `undefined` result for an `undefined`
top-level value; inside arrays `undefined` serializes as `null`; inside
objects, fields holding `undefined` are skipped. -/
def jsonStringifyVal : JsValue → Option String
  | .undef => none
  | .null => some "null"
  | .bool true => some "true"
  | .bool false => some "false"
  | .num n => some (toString n)
  | .str s => some (quoteJson s)
  | .arr xs => some ("[" ++ String.intercalate "," (jsonStringifyArr xs) ++ "]")
  | .obj fs => some ("\x7b" ++ String.intercalate "," (jsonStringifyObj fs) ++ "\x7d")
/-- Rendered array elements. -/
def jsonStringifyArr : JsArr → List String
  | .nil => []
  | .cons h t =>
    (match jsonStringifyVal h with
      | some s => s
      | none => "null") :: jsonStringifyArr t
/-- Rendered `key:value` members, skipping `undefined`-valued fields. -/
def jsonStringifyObj : JsObj → List String
  | .nil => []
  | .cons k v t =>
    match jsonStringifyVal v with
    | none => jsonStringifyObj t
    | some sv => (quoteJson k ++ ":" ++ sv) :: jsonStringifyObj t
end

mutual
/-- JavaScript string coercion `String(v)` (used when JSON.parse receives a
non-string argument). -/
def jsStringCoerce : JsValue → String
  | .undef => "undefined"
  | .null => "null"
  | .bool true => "true"
  | .bool false => "false"
  | .num n => toString n
  | .str s => s
  | .arr xs => jsArrJoin xs
  | .obj _ => "[object Object]"
/-- Array string coercion: elements joined by commas, with nullish
elements rendered empty. -/
def jsArrJoin : JsArr → String
  | .nil => ""
  | .cons h .nil => if jsIsNullish h then "" else jsStringCoerce h
  | .cons h t => (if jsIsNullish h then "" else jsStringCoerce h) ++ "," ++ jsArrJoin t
end

/-! ## Stream consumer: text extraction (web/src/App.tsx, extractTextFromPayload) -/

/-- The `content.map(c => typeof c?.text === "string" ? c.text : null)
.filter(Boolean).join("")` step: concatenate the string-typed `text` fields
of the content blocks in order (dropping `null` and empty strings before a
`join("")` does not change the concatenation). -/
def contentPartsJoin : JsArr → String
  | .nil => ""
  | .cons c t =>
    (match jsGet c "text" with
      | .str s => s
      | _ => "") ++ contentPartsJoin t

/-- The optional-chained path `payload?.response?.output?.[0]?.content`. -/
def responseContentPath (payload : JsValue) : JsValue :=
  jsGet (jsIndexZero (jsGet (jsGet payload "response") "output")) "content"

/-- The content-blocks fallback of `extractTextFromPayload` (the code wraps
it in try/catch, but every access is optional-chained, so no branch throws). -/
def contentBlocksText (payload : JsValue) : String :=
  match responseContentPath payload with
  | .arr xs =>
    let parts := contentPartsJoin xs
    if parts = "" then "" else parts
  | _ => ""

/-- web/src/App.tsx, `extractTextFromPayload`. -/
def extractTextFromPayload (payload : JsValue) : String :=
  if ¬ jsIsObjectType payload then ""
  else
    match jsGet payload "delta" with
    | .str s => s
    | _ =>
      match jsGet payload "text" with
      | .str s => s
      | _ =>
        match (if jsTruthy (jsGet payload "data") then jsGet (jsGet payload "data") "text" else .undef) with
        | .str s => s
        | _ => contentBlocksText payload

/-- The extraction heuristic as the specification words it: the first
applicable of a top-level string `delta`; else a top-level string `text`;
else a string `text` under a `data` object; else the concatenation of the
string `text` fields of the blocks in the array at
`response.output[0].content`, only if non-empty; else the empty string. -/
def specFirstApplicable (payload : JsValue) : String :=
  match jsGet payload "delta" with
  | .str s => s
  | _ =>
    match jsGet payload "text" with
    | .str s => s
    | _ =>
      match (match jsGet payload "data" with
              | .obj fs => objFind fs "text"
              | _ => .undef) with
      | .str s => s
      | _ =>
        match responseContentPath payload with
        | .arr xs =>
          let parts := contentPartsJoin xs
          if parts = "" then "" else parts
        | _ => ""

/-! ## Stream consumer: read loop state (web/src/App.tsx, startStream) -/

/-- Observable consumer-session state: the text buffer of not-yet-complete
frame data, the ordered event log, the transcript, and the final structured
result (initially `null`). -/
structure ConsumerState where
  buffer : List Char
  events : List JsValue
  transcript : String
  finalJson : JsValue

/-- The initial consumer state (startStream resets all observable state
before reading). -/
def initConsumer : ConsumerState :=
  { buffer := [], events := [], transcript := "", finalJson := .null }

/-- Process one successfully parsed event, mirroring the body of the frame
try-block: append to the event log; if the discriminator is `message` with a
truthy payload, append extracted non-empty text to the transcript; if the
discriminator is `final`, replace the final result with `evt.data ?? null`.
When the parsed value is nullish, the `evt.event` access throws a TypeError
that the enclosing catch swallows, after the event-log append has been
queued. -/
def processEvent (st : ConsumerState) (evt : JsValue) : ConsumerState :=
  let st1 := { st with events := st.events ++ [evt] }
  if jsIsNullish evt then st1
  else
    let st2 :=
      if jsStrEq (jsGet evt "event") "message" && jsTruthy (jsGet evt "payload") then
        let text := extractTextFromPayload (jsGet evt "payload")
        if text = "" then st1 else { st1 with transcript := st1.transcript ++ text }
      else st1
    if jsStrEq (jsGet evt "event") "final" then
      { st2 with finalJson := jsNullCoalesce (jsGet evt "data") }
    else st2

/-- Process one complete frame: trim, require the `data:` marker, strip it
(plus at most one whitespace character), JSON-parse; a parse failure is
swallowed and the frame is dropped. -/
def processFrame (st : ConsumerState) (frame : List Char) : ConsumerState :=
  let line := jsTrim frame
  if ¬ dataMarked line then st
  else
    match parseJson (stripDataMarker line) with
    | none => st
    | some evt => processEvent st evt

/-- The split of the buffer on the frame delimiter: leftmost non-overlapping split on the two-newline
delimiter; always returns at least one (possibly empty) piece. -/
def splitFrames : List Char → List (List Char)
  | [] => [[]]
  | [c] => [[c]]
  | c1 :: c2 :: rest =>
    if c1 = '\n' ∧ c2 = '\n' then [] :: splitFrames rest
    else
      match splitFrames (c2 :: rest) with
      | [] => [[c1]]
      | p :: ps => (c1 :: p) :: ps

/-- Prepend a character to the first piece of a split result (the shape the
non-delimiter case of `splitFrames` produces). -/
def consHead (c : Char) : List (List Char) → List (List Char)
  | [] => [[c]]
  | p :: ps => (c :: p) :: ps

/-- One iteration of the read loop after text decoding: append the decoded
text to the buffer, split on the delimiter, keep the last piece (possibly
empty) as the new buffer, and process every earlier piece as a complete
frame. -/
def consumeChunk (st : ConsumerState) (text : List Char) : ConsumerState :=
  let parts := splitFrames (st.buffer ++ text)
  List.foldl processFrame { st with buffer := parts.getLastD [] } parts.dropLast

/-- Run the whole read loop over a list of already-decoded text chunks. -/
def runConsumer (chunks : List (List Char)) : ConsumerState :=
  List.foldl consumeChunk initConsumer chunks

/-! ## Streaming UTF-8 text decoder (the read loop's TextDecoder with
stream mode on) -/

/-- UTF-8 encoding of one scalar value. -/
def utf8EncodeChar (c : Char) : List Nat :=
  let n := c.toNat
  if n < 0x80 then [n]
  else if n < 0x800 then [0xc0 + n / 64, 0x80 + n % 64]
  else if n < 0x10000 then
    [0xe0 + n / 4096, 0x80 + (n / 64) % 64, 0x80 + n % 64]
  else
    [0xf0 + n / 262144, 0x80 + (n / 4096) % 64, 0x80 + (n / 64) % 64, 0x80 + n % 64]

/-- UTF-8 encoding of a character sequence. -/
def utf8EncodeList (cs : List Char) : List Nat :=
  cs.foldr (fun c acc => utf8EncodeChar c ++ acc) []

/-- Result of examining the front of the byte buffer: a decoded character
consuming `k` bytes; an incomplete (but so far consistent) trailing
sequence; or a malformed sequence whose first `k` bytes are consumed for one
replacement character. -/
inductive Utf8Step : Type where
  | ok (c : Char) (k : Nat) : Utf8Step
  | incomplete : Utf8Step
  | err (k : Nat) : Utf8Step

/-- Decode one scalar value from the front of the buffer, following the
WHATWG UTF-8 decoder's boundary checks (no overlong forms, no surrogates,
max U+10FFFF). -/
def utf8DecodeOne : List Nat → Utf8Step
  | [] => .incomplete
  | b :: rest =>
    if b < 0x80 then .ok (Char.ofNat b) 1
    else if b < 0xc2 then .err 1
    else if b < 0xe0 then
      match rest with
      | [] => .incomplete
      | b2 :: _ =>
        if 0x80 ≤ b2 ∧ b2 < 0xc0 then
          .ok (Char.ofNat ((b - 0xc0) * 64 + (b2 - 0x80))) 2
        else .err 1
    else if b < 0xf0 then
      let lo2 := if b = 0xe0 then 0xa0 else 0x80
      let hi2 := if b = 0xed then 0xa0 else 0xc0
      match rest with
      | [] => .incomplete
      | b2 :: rest2 =>
        if lo2 ≤ b2 ∧ b2 < hi2 then
          match rest2 with
          | [] => .incomplete
          | b3 :: _ =>
            if 0x80 ≤ b3 ∧ b3 < 0xc0 then
              .ok (Char.ofNat ((b - 0xe0) * 4096 + (b2 - 0x80) * 64 + (b3 - 0x80))) 3
            else .err 2
        else .err 1
    else if b < 0xf5 then
      let lo2 := if b = 0xf0 then 0x90 else 0x80
      let hi2 := if b = 0xf4 then 0x90 else 0xc0
      match rest with
      | [] => .incomplete
      | b2 :: rest2 =>
        if lo2 ≤ b2 ∧ b2 < hi2 then
          match rest2 with
          | [] => .incomplete
          | b3 :: rest3 =>
            if 0x80 ≤ b3 ∧ b3 < 0xc0 then
              match rest3 with
              | [] => .incomplete
              | b4 :: _ =>
                if 0x80 ≤ b4 ∧ b4 < 0xc0 then
                  .ok (Char.ofNat ((b - 0xf0) * 262144 + (b2 - 0x80) * 4096 +
                        (b3 - 0x80) * 64 + (b4 - 0x80))) 4
                else .err 3
            else .err 2
        else .err 1
    else .err 1

/-- Greedy decoding loop with fuel (one unit per consumed-byte step; the
fuel is instantiated with the buffer length, which always suffices since
every `ok`/`err` step consumes at least one byte). Returns the decoded text
and the retained incomplete tail. -/
def utf8DecodeGo : Nat → List Nat → List Char × List Nat
  | 0, bs => ([], bs)
  | fuel + 1, bs =>
    match utf8DecodeOne bs with
    | .incomplete => ([], bs)
    | .ok c k =>
      let r := utf8DecodeGo fuel (bs.drop k)
      (c :: r.1, r.2)
    | .err k =>
      let r := utf8DecodeGo fuel (bs.drop k)
      ('\ufffd' :: r.1, r.2)

/-- Streaming decode of a byte buffer: decoded text plus the pending
incomplete suffix, as `TextDecoder.decode(value, with stream mode on)`
behaves on well-formed input. -/
def utf8DecodeLoop (bs : List Nat) : List Char × List Nat :=
  utf8DecodeGo bs.length bs

/-- State of the byte-level read loop: the decoder's pending bytes plus the
consumer state. -/
structure ByteState where
  pending : List Nat
  consumer : ConsumerState

/-- Initial byte-level state. -/
def byteInit : ByteState :=
  { pending := [], consumer := initConsumer }

/-- One byte-level read-loop iteration: streaming-decode the pending bytes
plus the arriving chunk, then feed the decoded text to the text-level loop. -/
def consumeByteChunk (b : ByteState) (chunk : List Nat) : ByteState :=
  let d := utf8DecodeLoop (b.pending ++ chunk)
  { pending := d.2, consumer := consumeChunk b.consumer d.1 }

/-- Run the byte-level read loop over a list of byte chunks. -/
def runByteConsumer (chunks : List (List Nat)) : ByteState :=
  List.foldl consumeByteChunk byteInit chunks

/-! ## Server: extraction helper (server/src/server.ts, extractJsonFromResponse) -/

/-- The match of `raw.match(/\x7b[\s\S]*\x7d$/)`: the regex is anchored at
the end of the string, so it matches exactly when the string ends with a
closing brace and contains an opening brace, and the (greedy, leftmost)
match then runs from the first opening brace to the end. -/
def trailingBraceMatch (raw : String) : Option (List Char) :=
  match raw.data.dropWhile (fun c => c != '\x7b') with
  | [] => none
  | l => if l.getLastD ' ' = '\x7d' then some l else none

/-- Attempt (a): if the aggregated `output_text` field is truthy, JSON-parse
its string coercion; `none` on a parse failure (the inner catch falls
through). -/
def attemptOutputText (r : JsValue) : Option JsValue :=
  if jsTruthy (jsGet r "output_text") then
    parseJson (jsStringCoerce (jsGet r "output_text")).data
  else none

/-- The optional-chained path `r?.output?.[0]?.content?.[0]`. -/
def outputContentZero (r : JsValue) : JsValue :=
  jsIndexZero (jsGet (jsIndexZero (jsGet r "output")) "content")

/-- Attempt (b): the structured-content path; when its `type` tag is
`output_json`, the embedded JSON is returned directly (reading `undefined`
if the `json` field is absent). -/
def attemptStructuredJson (r : JsValue) : Option JsValue :=
  let content := outputContentZero r
  if jsStrEq (jsGet content "type") "output_json" then some (jsGet content "json")
  else none

/-- Attempt (c): serialize the whole response and JSON-parse the
brace-delimited run anchored at the end of the serialization. -/
def attemptTrailingJson (r : JsValue) : Option JsValue :=
  match jsonStringifyVal r with
  | none => none
  | some raw =>
    match trailingBraceMatch raw with
    | none => none
    | some l => parseJson l

/-- server/src/server.ts, `extractJsonFromResponse`, translated branch by
branch. The initial nullish test models the `(r).output_text` access
throwing on a nullish argument, which the outer catch turns into `null`. -/
def extractJsonFromResponse (r : JsValue) : JsValue :=
  if jsIsNullish r then .null
  else
    let maybeText := jsGet r "output_text"
    match (if jsTruthy maybeText then parseJson (jsStringCoerce maybeText).data else none) with
    | some v => v
    | none =>
      let content := outputContentZero r
      if jsStrEq (jsGet content "type") "output_json" then jsGet content "json"
      else
        match jsonStringifyVal r with
        | none => .null
        | some raw =>
          match trailingBraceMatch raw with
          | none => .null
          | some l =>
            match parseJson l with
            | some v => v
            | none => .null

/-! ## Server: schema and endpoints (server/src/server.ts) -/

/-- The `^\d\x7b4\x7d-\d\x7b2\x7d-\d\x7b2\x7d$` date-of-birth pattern. -/
def isDobFormat (s : String) : Bool :=
  match s.data with
  | [a, b, c, d, e, f, g, h, i, j] =>
    a.isDigit && b.isDigit && c.isDigit && d.isDigit && e = '-' &&
    f.isDigit && g.isDigit && h = '-' && i.isDigit && j.isDigit
  | _ => false

/-- Do all keys of the object belong to the given list? (Models
`additionalProperties: false`.) -/
def objKeysAmong : JsObj → List String → Bool
  | .nil, _ => true
  | .cons k _ t, allowed => allowed.contains k && objKeysAmong t allowed

/-- Validity of a value against `VisaIntakeSchema`: an object with exactly
the four required fields, string-typed, with the stated minimum lengths and
the date pattern, and no additional properties. -/
def visaIntakeValid (v : JsValue) : Bool :=
  match v with
  | .obj fs =>
    objKeysAmong fs ["full_name", "dob", "passport_number", "nationality"] &&
    (match objFind fs "full_name" with
      | .str s => decide (1 ≤ s.length)
      | _ => false) &&
    (match objFind fs "dob" with
      | .str s => isDobFormat s
      | _ => false) &&
    (match objFind fs "passport_number" with
      | .str s => decide (5 ≤ s.length)
      | _ => false) &&
    (match objFind fs "nationality" with
      | .str s => decide (2 ≤ s.length)
      | _ => false)
  | _ => false

/-- Result of the non-streaming endpoint. -/
inductive ChatResult : Type where
  | badRequest (body : JsValue) : ChatResult
  | ok (body : JsValue) : ChatResult

/-- The POST /api/chat handler given the parsed request body and the
upstream one-shot response: reject a missing/empty/non-string `userMessage`
with a client error before any upstream call; otherwise respond with the
extraction result under the `data` key. -/
def chatEndpoint (body : JsValue) (upstream : JsValue) : ChatResult :=
  let userMessage := jsGet body "userMessage"
  if !jsTruthy userMessage || !(match userMessage with | .str _ => true | _ => false) then
    .badRequest (.obj (.cons "error" (.str "bad_request")
      (.cons "message" (.str "userMessage (string) is required") .nil)))
  else
    .ok (.obj (.cons "data" (extractJsonFromResponse upstream) .nil))

/-- The final SSE frame the streaming endpoint writes on the upstream
`finalMessage` event: the serialized envelope with the extraction result,
framed by the marker and the blank-line delimiter. -/
def relayFinalFrame (finalMsg : JsValue) : List Char :=
  "data: ".data ++
    ((jsonStringifyVal (.obj (.cons "event" (.str "final")
      (.cons "data" (extractJsonFromResponse finalMsg) .nil)))).getD "").data ++
    "\n\n".data

/-! ## Consumer session wrap-up (web/src/App.tsx, startStream catch/finally
and stopStream) -/

/-- How the read loop ends: normal completion, or a thrown exception with
its `name` and `message` (cancellation surfaces as an AbortError). -/
inductive ReadOutcome : Type where
  | completed : ReadOutcome
  | exn (name : String) (message : String) : ReadOutcome

/-- The catch branch: every non-AbortError failure records an error message
(falling back to a generic one when the exception message is falsy);
an AbortError records nothing. -/
def catchToError (o : ReadOutcome) : Option String :=
  match o with
  | .completed => none
  | .exn n m => if n ≠ "AbortError" then some (if m ≠ "" then m else "Stream error") else none

/-- Observable result of one whole streaming session. -/
structure SessionResult where
  consumer : ConsumerState
  error : Option String
  isStreaming : Bool
  controllerCleared : Bool

/-- One whole consumer session: the state accumulated from the chunks
delivered before the loop ended, the error state produced by the catch
branch, and the finally branch clearing the streaming flag and the
controller reference. -/
def runStreamSession (delivered : List (List Char)) (o : ReadOutcome) : SessionResult :=
  { consumer := runConsumer delivered
    error := catchToError o
    isStreaming := false
    controllerCleared := true }

/-! ## Controller-handle bookkeeping (web/src/App.tsx, startStream lines
creating the AbortController, and stopStream) -/

/-- Abort-controller bookkeeping of the consumer component: a counter for
fresh controllers, the controller currently held in `controllerRef`,
the set of controllers whose `abort()` was invoked, and the sessions whose
read loops were started. -/
structure StreamApp where
  nextId : Nat
  activeRef : Option Nat
  abortedIds : List Nat
  startedIds : List Nat

/-- Initial component state. -/
def appInit : StreamApp :=
  { nextId := 0, activeRef := none, abortedIds := [], startedIds := [] }

/-- Model of startStream: a fresh AbortController is created and stored in
`controllerRef`, and the read loop for the new session starts. The previous
controller is only overwritten, not aborted — no `abort()` call occurs in
`startStream`. -/
def startStreamStep (m : StreamApp) : StreamApp :=
  { nextId := m.nextId + 1
    activeRef := some m.nextId
    abortedIds := m.abortedIds
    startedIds := m.nextId :: m.startedIds }

/-- Model of stopStream: abort the currently held controller (if any) and clear the
reference. -/
def stopStreamStep (m : StreamApp) : StreamApp :=
  { m with
    activeRef := none
    abortedIds := match m.activeRef with
      | some i => i :: m.abortedIds
      | none => m.abortedIds }

/-- Sessions whose read loops were started and never cancelled: each such
loop keeps running (appending to the shared transcript state) until its
stream ends on its own. -/
def activeLoops (m : StreamApp) : List Nat :=
  m.startedIds.filter (fun i => !m.abortedIds.contains i)

/-! ## Concrete scenario values used by the witnesses and bug evaluations -/

/-- An upstream response whose extractable text is the non-JSON string
`not json` (the schema-rejection scenario of the specification). -/
def notJsonResponse : JsValue :=
  .obj (.cons "output_text" (.str "not json") .nil)

/-- A well-formed request body for the non-streaming endpoint. -/
def chatReqBody : JsValue :=
  .obj (.cons "userMessage"
    (.str "I am Jane Doe, born 1991-04-12, passport AB1234567, nationality UK.") .nil)

/-- A two-frame SSE stream whose first payload carries a two-byte UTF-8
character (the accented character encodes as bytes 0xC3 0xA9). -/
def demoText : String :=
  "data: \x7b\x22event\x22:\x22message\x22,\x22payload\x22:\x7b\x22delta\x22:\x22Caf\u00e9\x22\x7d\x7d\n\ndata: \x7b\x22event\x22:\x22final\x22,\x22data\x22:null\x7d\n\n"

/-- The UTF-8 bytes of the demo stream. -/
def demoBytes : List Nat := utf8EncodeList demoText.data

/-- A chunking of the demo stream that splits inside the two-byte character
(bytes 48 and 49) and inside the blank-line delimiter (bytes 53 and 54). -/
def demoChunks : List (List Nat) :=
  [demoBytes.take 49, (demoBytes.drop 49).take 5, demoBytes.drop 54]

/-- A consumer state with accumulated content, used to check that dropped
frames and final events do not disturb unrelated state. -/
def stWitness : ConsumerState :=
  { buffer := []
    events := [.obj (.cons "event" (.str "message") .nil)]
    transcript := "Jane"
    finalJson := .obj (.cons "full_name" (.str "Old") .nil) }

/-- A `final` event carrying a complete structured object. -/
def finalEvtWitness : JsValue :=
  .obj (.cons "event" (.str "final")
    (.cons "data" (.obj (.cons "full_name" (.str "Jane Doe")
      (.cons "dob" (.str "1991-04-12")
        (.cons "passport_number" (.str "AB1234567")
          (.cons "nationality" (.str "UK") .nil))))) .nil))

/-- A `final` event with `data` explicitly null. -/
def finalNullEvtWitness : JsValue :=
  .obj (.cons "event" (.str "final") (.cons "data" .null .nil))

/-- A `final` event with no `data` field at all. -/
def finalAbsentEvtWitness : JsValue :=
  .obj (.cons "event" (.str "final") .nil)

/-- A payload whose `delta` is the empty string while later-priority shapes
carry non-empty text. -/
def emptyDeltaPayload : JsValue :=
  .obj (.cons "delta" (.str "")
    (.cons "text" (.str "zz")
      (.cons "data" (.obj (.cons "text" (.str "yy") .nil)) .nil)))

/-- A `message` event wrapping the empty-delta payload. -/
def emptyDeltaEvtWitness : JsValue :=
  .obj (.cons "event" (.str "message") (.cons "payload" emptyDeltaPayload .nil))

/-- A bare `event:` line, which is a complete frame without the data
marker. -/
def frameEventEnd : List Char := "event: end".data

/-- A data frame whose payload is malformed JSON. -/
def frameBadJson : List Char := "data: \x7bnot json".data

/-- A well-formed data frame. -/
def frameGoodJson : List Char :=
  "data: \x7b\x22event\x22:\x22message\x22,\x22payload\x22:\x7b\x22delta\x22:\x22ok\x22\x7d\x7d".data

/-! # Theorems -/

/-! ## Splitting on the frame delimiter -/

theorem splitFrames_ne_nil (x : List Char) : splitFrames x ≠ [] := by
  induction x using splitFrames.induct with
  | case1 => simp [splitFrames]
  | case2 c => simp [splitFrames]
  | case3 c1 c2 rest h ih => simp [splitFrames, h]
  | case4 c1 c2 rest h hs ih => exact absurd hs ih
  | case5 c1 c2 rest h p ps hs ih =>
    simp only [splitFrames, if_neg h, hs]
    simp

theorem splitFrames_cons_of_not_sep (c : Char) (z : List Char)
    (h : ¬(c = '\n' ∧ z.head? = some '\n')) :
    splitFrames (c :: z) = consHead c (splitFrames z) := by
  cases z with
  | nil => rfl
  | cons c2 rest =>
    have h' : ¬(c = '\n' ∧ c2 = '\n') := by simpa using h
    cases hs : splitFrames (c2 :: rest) with
    | nil => exact absurd hs (splitFrames_ne_nil _)
    | cons p ps => simp only [splitFrames, if_neg h', hs, consHead]

theorem splitFrames_cons_sep (rest : List Char) :
    splitFrames ('\n' :: '\n' :: rest) = [] :: splitFrames rest := by
  simp [splitFrames]

theorem getLastD_cons_cons {α : Type} (a b : α) (l : List α) (d : α) :
    (a :: b :: l).getLastD d = (b :: l).getLastD d := by
  simp [List.getLastD_cons]

theorem splitFrames_singleton (z : List Char) :
    ∀ p, splitFrames z = [p] → p = z := by
  induction z using splitFrames.induct with
  | case1 =>
    intro p h
    simp [splitFrames] at h
    simp [h]
  | case2 c =>
    intro p h
    simp [splitFrames] at h
    simp [h]
  | case3 c1 c2 rest hc ih =>
    intro p h
    obtain ⟨h1, h2⟩ := hc
    subst h1; subst h2
    rw [splitFrames_cons_sep] at h
    cases hr : splitFrames rest with
    | nil => exact absurd hr (splitFrames_ne_nil _)
    | cons a b =>
      rw [hr] at h
      simp at h
  | case4 c1 c2 rest hc hs ih => exact absurd hs (splitFrames_ne_nil _)
  | case5 c1 c2 rest hc p' ps' hs ih =>
    intro p h
    simp only [splitFrames, if_neg hc, hs] at h
    cases ps' with
    | nil =>
      simp only [List.cons.injEq, and_true] at h
      have hp' : p' = c2 :: rest := ih p' hs
      rw [← h, hp']
    | cons q qs => simp at h

theorem splitFrames_append (x y : List Char) :
    splitFrames (x ++ y) =
      (splitFrames x).dropLast ++ splitFrames ((splitFrames x).getLastD [] ++ y) := by
  induction x using splitFrames.induct with
  | case1 => simp [splitFrames]
  | case2 c => simp [splitFrames]
  | case3 c1 c2 rest hc ih =>
    obtain ⟨h1, h2⟩ := hc
    subst h1; subst h2
    rw [List.cons_append, List.cons_append, splitFrames_cons_sep, splitFrames_cons_sep, ih]
    cases hS : splitFrames rest with
    | nil => exact absurd hS (splitFrames_ne_nil _)
    | cons s0 S' => simp [getLastD_cons_cons]
  | case4 c1 c2 rest hc hs ih => exact absurd hs (splitFrames_ne_nil _)
  | case5 c1 c2 rest hc p ps hs ih =>
    have hx : splitFrames (c1 :: c2 :: rest) = consHead c1 (splitFrames (c2 :: rest)) :=
      splitFrames_cons_of_not_sep c1 (c2 :: rest) (by simpa using hc)
    have hxy : splitFrames (c1 :: (c2 :: rest ++ y)) =
        consHead c1 (splitFrames (c2 :: rest ++ y)) :=
      splitFrames_cons_of_not_sep c1 (c2 :: rest ++ y) (by simpa using hc)
    rw [List.cons_append, hxy, ih, hx, hs]
    cases ps with
    | nil =>
      have hp : p = c2 :: rest := splitFrames_singleton _ p hs
      have hcons : splitFrames (c1 :: (p ++ y)) = consHead c1 (splitFrames (p ++ y)) := by
        apply splitFrames_cons_of_not_sep
        rw [hp]
        simpa using hc
      have e1 : consHead c1 [p] = [c1 :: p] := rfl
      rw [e1]
      simp only [List.dropLast_single, List.getLastD_cons, List.getLastD_nil, List.nil_append]
      exact hcons.symm
    | cons q qs =>
      simp only [consHead, List.dropLast_cons₂, getLastD_cons_cons, List.cons_append]

/-! ## The read loop is insensitive to chunk boundaries (text level) -/

theorem getLastD_append {α : Type} (xs ys : List α) (d : α) (h : ys ≠ []) :
    (xs ++ ys).getLastD d = ys.getLastD d := by
  induction xs generalizing d with
  | nil => rfl
  | cons x xs ih =>
    rw [List.cons_append, List.getLastD_cons, ih x]
    cases ys with
    | nil => exact absurd rfl h
    | cons q qs => rw [List.getLastD_cons, List.getLastD_cons]

theorem processEvent_setBuffer (st : ConsumerState) (b : List Char) (e : JsValue) :
    processEvent { st with buffer := b } e = { processEvent st e with buffer := b } := by
  cases st with
  | mk buf ev tr fj =>
    simp only [processEvent]
    repeat' split
    all_goals rfl

theorem processFrame_setBuffer (st : ConsumerState) (b : List Char) (f : List Char) :
    processFrame { st with buffer := b } f = { processFrame st f with buffer := b } := by
  simp only [processFrame]
  split
  · rfl
  · split
    · rfl
    · exact processEvent_setBuffer st b _

theorem foldl_processFrame_setBuffer (fs : List (List Char)) (st : ConsumerState)
    (b : List Char) :
    List.foldl processFrame { st with buffer := b } fs =
      { List.foldl processFrame st fs with buffer := b } := by
  induction fs generalizing st with
  | nil => rfl
  | cons f fs ih =>
    rw [List.foldl_cons, List.foldl_cons, processFrame_setBuffer, ih]

theorem foldl_processFrame_buffer (fs : List (List Char)) (st : ConsumerState) :
    (List.foldl processFrame st fs).buffer = st.buffer := by
  have h := foldl_processFrame_setBuffer fs st st.buffer
  have e : { st with buffer := st.buffer } = st := rfl
  rw [e] at h
  rw [h]

theorem consumeChunk_append (st : ConsumerState) (t1 t2 : List Char) :
    consumeChunk (consumeChunk st t1) t2 = consumeChunk st (t1 ++ t2) := by
  have hb : (consumeChunk st t1).buffer = (splitFrames (st.buffer ++ t1)).getLastD [] := by
    show (List.foldl processFrame
        { st with buffer := (splitFrames (st.buffer ++ t1)).getLastD [] }
        (splitFrames (st.buffer ++ t1)).dropLast).buffer = _
    rw [foldl_processFrame_buffer]
  have hc1 : consumeChunk st t1 =
      List.foldl processFrame
        { st with buffer := (splitFrames (st.buffer ++ t1)).getLastD [] }
        (splitFrames (st.buffer ++ t1)).dropLast := rfl
  show List.foldl processFrame
      { consumeChunk st t1 with
        buffer := (splitFrames ((consumeChunk st t1).buffer ++ t2)).getLastD [] }
      (splitFrames ((consumeChunk st t1).buffer ++ t2)).dropLast
    = List.foldl processFrame
      { st with buffer := (splitFrames (st.buffer ++ (t1 ++ t2))).getLastD [] }
      (splitFrames (st.buffer ++ (t1 ++ t2))).dropLast
  rw [hb]
  have hex : { consumeChunk st t1 with
        buffer := (splitFrames ((splitFrames (st.buffer ++ t1)).getLastD [] ++ t2)).getLastD [] }
      = List.foldl processFrame
        { st with
          buffer := (splitFrames ((splitFrames (st.buffer ++ t1)).getLastD [] ++ t2)).getLastD [] }
        (splitFrames (st.buffer ++ t1)).dropLast := by
    rw [hc1, ← foldl_processFrame_setBuffer]
  rw [hex, ← List.foldl_append]
  have hne := splitFrames_ne_nil ((splitFrames (st.buffer ++ t1)).getLastD [] ++ t2)
  have hPT : splitFrames (st.buffer ++ (t1 ++ t2)) =
      (splitFrames (st.buffer ++ t1)).dropLast ++
        splitFrames ((splitFrames (st.buffer ++ t1)).getLastD [] ++ t2) := by
    rw [← List.append_assoc]
    exact splitFrames_append (st.buffer ++ t1) t2
  rw [hPT]
  rw [List.dropLast_append_of_ne_nil _ hne]
  rw [getLastD_append _ _ _ hne]

theorem foldl_consumeChunk_cons (cs : List (List Char)) (c : List Char) (st : ConsumerState) :
    List.foldl consumeChunk st (c :: cs) = consumeChunk st (c ++ cs.flatten) := by
  induction cs generalizing c st with
  | nil => simp
  | cons c2 cs ih =>
    rw [List.foldl_cons, ih c2 (consumeChunk st c), consumeChunk_append, List.flatten_cons]

theorem runConsumer_flatten (chunks : List (List Char)) :
    runConsumer chunks = runConsumer [chunks.flatten] := by
  cases chunks with
  | nil => rfl
  | cons c cs =>
    unfold runConsumer
    rw [foldl_consumeChunk_cons, List.foldl_cons, List.foldl_nil, List.flatten_cons]

/-! ## The streaming UTF-8 decoder is insensitive to chunk boundaries -/

set_option maxHeartbeats 2000000 in
theorem utf8DecodeOne_ok_append (bs ys : List Nat) (c : Char) (k : Nat)
    (h : utf8DecodeOne bs = .ok c k) :
    utf8DecodeOne (bs ++ ys) = .ok c k ∧ 1 ≤ k ∧ k ≤ bs.length := by
  match bs with
  | [] => simp [utf8DecodeOne] at h
  | [b] =>
    simp only [utf8DecodeOne, List.cons_append, List.nil_append] at h ⊢
    split_ifs at h ⊢ <;>
      (injection h with h1 h2; subst h1; subst h2;
       exact ⟨rfl, by omega, by simp only [List.length_cons, List.length_nil]; omega⟩)
  | [b, b2] =>
    simp only [utf8DecodeOne, List.cons_append, List.nil_append] at h ⊢
    split_ifs at h ⊢ <;>
      (injection h with h1 h2; subst h1; subst h2;
       exact ⟨rfl, by omega, by simp only [List.length_cons, List.length_nil]; omega⟩)
  | [b, b2, b3] =>
    simp only [utf8DecodeOne, List.cons_append, List.nil_append] at h ⊢
    split_ifs at h ⊢ <;>
      (injection h with h1 h2; subst h1; subst h2;
       exact ⟨rfl, by omega, by simp only [List.length_cons, List.length_nil]; omega⟩)
  | b :: b2 :: b3 :: b4 :: rest =>
    simp only [utf8DecodeOne, List.cons_append] at h ⊢
    split_ifs at h ⊢ <;>
      (injection h with h1 h2; subst h1; subst h2;
       exact ⟨rfl, by omega, by simp only [List.length_cons]; omega⟩)

set_option maxHeartbeats 2000000 in
theorem utf8DecodeOne_err_append (bs ys : List Nat) (k : Nat)
    (h : utf8DecodeOne bs = .err k) :
    utf8DecodeOne (bs ++ ys) = .err k ∧ 1 ≤ k ∧ k ≤ bs.length := by
  match bs with
  | [] => simp [utf8DecodeOne] at h
  | [b] =>
    simp only [utf8DecodeOne, List.cons_append, List.nil_append] at h ⊢
    split_ifs at h ⊢ <;>
      (injection h with h1; subst h1;
       exact ⟨rfl, by omega, by simp only [List.length_cons, List.length_nil]; omega⟩)
  | [b, b2] =>
    simp only [utf8DecodeOne, List.cons_append, List.nil_append] at h ⊢
    split_ifs at h ⊢ <;>
      (injection h with h1; subst h1;
       exact ⟨rfl, by omega, by simp only [List.length_cons, List.length_nil]; omega⟩)
  | [b, b2, b3] =>
    simp only [utf8DecodeOne, List.cons_append, List.nil_append] at h ⊢
    split_ifs at h ⊢ <;>
      (injection h with h1; subst h1;
       exact ⟨rfl, by omega, by simp only [List.length_cons, List.length_nil]; omega⟩)
  | b :: b2 :: b3 :: b4 :: rest =>
    simp only [utf8DecodeOne, List.cons_append] at h ⊢
    split_ifs at h ⊢ <;>
      (injection h with h1; subst h1;
       exact ⟨rfl, by omega, by simp only [List.length_cons]; omega⟩)

theorem utf8DecodeGo_fuel (f1 : Nat) : ∀ (f2 : Nat) (bs : List Nat),
    bs.length ≤ f1 → bs.length ≤ f2 → utf8DecodeGo f1 bs = utf8DecodeGo f2 bs := by
  induction f1 with
  | zero =>
    intro f2 bs h1 h2
    have hbs : bs = [] := List.eq_nil_of_length_eq_zero (Nat.le_zero.mp h1)
    subst hbs
    cases f2 with
    | zero => rfl
    | succ n => simp only [utf8DecodeGo, utf8DecodeOne]
  | succ f ih =>
    intro f2 bs h1 h2
    cases bs with
    | nil =>
      cases f2 with
      | zero => rfl
      | succ n => simp only [utf8DecodeGo, utf8DecodeOne]
    | cons b rest =>
      cases f2 with
      | zero => simp at h2
      | succ f2' =>
        cases hstep : utf8DecodeOne (b :: rest) with
        | incomplete => simp only [utf8DecodeGo, hstep]
        | ok c k =>
          obtain ⟨-, hk1, hk2⟩ := utf8DecodeOne_ok_append (b :: rest) [] c k hstep
          have hlen : ((b :: rest).drop k).length ≤ f := by
            rw [List.length_drop]
            simp only [List.length_cons] at h1 ⊢
            omega
          have hlen2 : ((b :: rest).drop k).length ≤ f2' := by
            rw [List.length_drop]
            simp only [List.length_cons] at h2 ⊢
            omega
          simp only [utf8DecodeGo, hstep]
          rw [ih f2' _ hlen hlen2]
        | err k =>
          obtain ⟨-, hk1, hk2⟩ := utf8DecodeOne_err_append (b :: rest) [] k hstep
          have hlen : ((b :: rest).drop k).length ≤ f := by
            rw [List.length_drop]
            simp only [List.length_cons] at h1 ⊢
            omega
          have hlen2 : ((b :: rest).drop k).length ≤ f2' := by
            rw [List.length_drop]
            simp only [List.length_cons] at h2 ⊢
            omega
          simp only [utf8DecodeGo, hstep]
          rw [ih f2' _ hlen hlen2]

theorem utf8DecodeLoop_incomplete (bs : List Nat) (h : utf8DecodeOne bs = .incomplete) :
    utf8DecodeLoop bs = ([], bs) := by
  cases bs with
  | nil => rfl
  | cons b rest =>
    unfold utf8DecodeLoop
    simp only [List.length_cons, utf8DecodeGo, h]

theorem utf8DecodeLoop_ok (bs : List Nat) (c : Char) (k : Nat)
    (h : utf8DecodeOne bs = .ok c k) (hk1 : 1 ≤ k) :
    utf8DecodeLoop bs =
      (c :: (utf8DecodeLoop (bs.drop k)).1, (utf8DecodeLoop (bs.drop k)).2) := by
  cases bs with
  | nil => simp [utf8DecodeOne] at h
  | cons b rest =>
    unfold utf8DecodeLoop
    simp only [List.length_cons, utf8DecodeGo, h]
    have hl : ((b :: rest).drop k).length ≤ rest.length := by
      rw [List.length_drop]
      simp only [List.length_cons]
      omega
    rw [utf8DecodeGo_fuel rest.length ((b :: rest).drop k).length _ hl (le_refl _)]

theorem utf8DecodeLoop_err (bs : List Nat) (k : Nat)
    (h : utf8DecodeOne bs = .err k) (hk1 : 1 ≤ k) :
    utf8DecodeLoop bs =
      ('\ufffd' :: (utf8DecodeLoop (bs.drop k)).1, (utf8DecodeLoop (bs.drop k)).2) := by
  cases bs with
  | nil => simp [utf8DecodeOne] at h
  | cons b rest =>
    unfold utf8DecodeLoop
    simp only [List.length_cons, utf8DecodeGo, h]
    have hl : ((b :: rest).drop k).length ≤ rest.length := by
      rw [List.length_drop]
      simp only [List.length_cons]
      omega
    rw [utf8DecodeGo_fuel rest.length ((b :: rest).drop k).length _ hl (le_refl _)]

theorem utf8DecodeLoop_append (x y : List Nat) :
    utf8DecodeLoop (x ++ y) =
      ((utf8DecodeLoop x).1 ++ (utf8DecodeLoop ((utf8DecodeLoop x).2 ++ y)).1,
       (utf8DecodeLoop ((utf8DecodeLoop x).2 ++ y)).2) := by
  generalize hn : x.length = n
  induction n using Nat.strong_induction_on generalizing x with
  | _ n ih =>
    cases hstep : utf8DecodeOne x with
    | incomplete =>
      rw [utf8DecodeLoop_incomplete x hstep]
      simp
    | ok c k =>
      obtain ⟨happ, hk1, hk2⟩ := utf8DecodeOne_ok_append x y c k hstep
      rw [utf8DecodeLoop_ok x c k hstep hk1, utf8DecodeLoop_ok (x ++ y) c k happ hk1,
        List.drop_append_of_le_length hk2]
      have hlt : (x.drop k).length < n := by
        rw [List.length_drop]
        omega
      rw [ih (x.drop k).length hlt (x.drop k) rfl]
      simp
    | err k =>
      obtain ⟨happ, hk1, hk2⟩ := utf8DecodeOne_err_append x y k hstep
      rw [utf8DecodeLoop_err x k hstep hk1, utf8DecodeLoop_err (x ++ y) k happ hk1,
        List.drop_append_of_le_length hk2]
      have hlt : (x.drop k).length < n := by
        rw [List.length_drop]
        omega
      rw [ih (x.drop k).length hlt (x.drop k) rfl]
      simp

theorem consumeByteChunk_append (b : ByteState) (c1 c2 : List Nat) :
    consumeByteChunk (consumeByteChunk b c1) c2 = consumeByteChunk b (c1 ++ c2) := by
  show ({ pending := (utf8DecodeLoop ((utf8DecodeLoop (b.pending ++ c1)).2 ++ c2)).2,
          consumer := consumeChunk (consumeChunk b.consumer (utf8DecodeLoop (b.pending ++ c1)).1)
            (utf8DecodeLoop ((utf8DecodeLoop (b.pending ++ c1)).2 ++ c2)).1 } : ByteState)
      = { pending := (utf8DecodeLoop (b.pending ++ (c1 ++ c2))).2,
          consumer := consumeChunk b.consumer (utf8DecodeLoop (b.pending ++ (c1 ++ c2))).1 }
  rw [consumeChunk_append, ← List.append_assoc, utf8DecodeLoop_append (b.pending ++ c1) c2]

theorem foldl_consumeByteChunk_cons (cs : List (List Nat)) (c : List Nat) (b : ByteState) :
    List.foldl consumeByteChunk b (c :: cs) = consumeByteChunk b (c ++ cs.flatten) := by
  induction cs generalizing c b with
  | nil => simp
  | cons c2 cs ih =>
    rw [List.foldl_cons, ih c2 (consumeByteChunk b c), consumeByteChunk_append,
      List.flatten_cons]

theorem runByteConsumer_flatten (chunks : List (List Nat)) :
    runByteConsumer chunks = runByteConsumer [chunks.flatten] := by
  cases chunks with
  | nil => rfl
  | cons c cs =>
    unfold runByteConsumer
    rw [foldl_consumeByteChunk_cons, List.foldl_cons, List.foldl_nil, List.flatten_cons]

/-! ## Claim theorems -/

/-- C1: For every well-formed SSE byte stream (the UTF-8 encoding of some
character stream) and every way of splitting it into chunks — including
splits in the middle of a multi-byte UTF-8 character and in the middle of
the blank-line delimiter — the consumer's read loop (streaming decode,
buffer append, split on the delimiter, keep the last piece as the new
buffer, process complete frames) reaches the same final state (the same
ordered event log, transcript, final result, and pending buffers) as when
the whole stream is delivered as a single chunk. -/
theorem c1_chunked_delivery_invariance (s : List Char) (chunks : List (List Nat))
    (h : chunks.flatten = utf8EncodeList s) :
    runByteConsumer chunks = runByteConsumer [utf8EncodeList s] := by
  rw [← h]
  exact runByteConsumer_flatten chunks

/-- Witness for C1: a concrete two-frame stream carrying a two-byte UTF-8
character, chunked so that one boundary falls between the two bytes of that
character and another falls between the two newlines of the delimiter. -/
theorem c1_chunked_delivery_invariance_witness :
    demoChunks.flatten = utf8EncodeList demoText.data ∧
    runByteConsumer demoChunks = runByteConsumer [utf8EncodeList demoText.data] :=
  ⟨rfl, c1_chunked_delivery_invariance demoText.data demoChunks rfl⟩

/-- C4 (code bug): on an upstream response whose extractable text is the
non-JSON string `not json`, the specification says extraction returns null
and the endpoint responds with a null `data`; the code instead reaches the
last-resort brace scan, whose regex matches the entire serialized response,
parses it back, and returns the whole response object, which the endpoint
then serves under `data`. -/
theorem c4_not_json_extraction_bug :
    extractJsonFromResponse notJsonResponse = notJsonResponse ∧
    jsIsNull (extractJsonFromResponse notJsonResponse) = false ∧
    chatEndpoint chatReqBody notJsonResponse =
      .ok (.obj (.cons "data" notJsonResponse .nil)) :=
  ⟨rfl, rfl, rfl⟩

/-- C5 (code bug): neither the relay extraction nor the consumer validates
the Structured Intake Result schema, so a final event produced from the
`not json` upstream response surfaces a non-null, schema-violating object
as the consumer's final result. -/
theorem c5_schema_violation_surfaced_bug :
    (runConsumer [relayFinalFrame notJsonResponse]).finalJson = notJsonResponse ∧
    jsIsNull ((runConsumer [relayFinalFrame notJsonResponse]).finalJson) = false ∧
    visaIntakeValid ((runConsumer [relayFinalFrame notJsonResponse]).finalJson) = false :=
  ⟨rfl, rfl, rfl⟩

/-- C6: processing a `final` event replaces the final-result state wholesale
with the event's `data` field run through the nullish-coalescing default
(absent or null data leaves null), independently of any previously
accumulated state — so the last `final` event wins and no merge occurs. -/
theorem c6_final_replaces_wholesale (st : ConsumerState) (evt : JsValue)
    (h : jsStrEq (jsGet evt "event") "final" = true) :
    (processEvent st evt).finalJson = jsNullCoalesce (jsGet evt "data") := by
  have hnn : jsIsNullish evt = false := by
    cases evt <;> simp_all [jsGet, jsStrEq, jsIsNullish]
  unfold processEvent
  simp only [hnn, Bool.false_eq_true, if_false, h, if_true]

/-- Witness for C6: over a state holding a previous non-null result, a
`final` event carrying a complete structured object replaces the result with
exactly that object, a `final` event with null data resets it to null, and a
`final` event with no data field also leaves null. -/
theorem c6_final_replaces_wholesale_witness :
    jsStrEq (jsGet finalEvtWitness "event") "final" = true ∧
    (processEvent stWitness finalEvtWitness).finalJson =
      .obj (.cons "full_name" (.str "Jane Doe")
        (.cons "dob" (.str "1991-04-12")
          (.cons "passport_number" (.str "AB1234567")
            (.cons "nationality" (.str "UK") .nil)))) ∧
    (processEvent stWitness finalNullEvtWitness).finalJson = .null ∧
    (processEvent stWitness finalAbsentEvtWitness).finalJson = .null :=
  ⟨rfl, (c6_final_replaces_wholesale stWitness finalEvtWitness rfl).trans rfl,
    (c6_final_replaces_wholesale stWitness finalNullEvtWitness rfl).trans rfl,
    (c6_final_replaces_wholesale stWitness finalAbsentEvtWitness rfl).trans rfl⟩

/-- C7: a complete frame that, after trimming, does not begin with the data
marker produces no event and no state mutation; a data frame whose payload
is malformed JSON is dropped silently without mutating any state; and a
dropped frame does not abort processing — folding the remaining frames
proceeds exactly as if the dropped frame were absent. -/
theorem c7_frame_drop_semantics :
    (∀ (st : ConsumerState) (f : List Char),
      dataMarked (jsTrim f) = false → processFrame st f = st) ∧
    (∀ (st : ConsumerState) (f : List Char),
      dataMarked (jsTrim f) = true → parseJson (stripDataMarker (jsTrim f)) = none →
      processFrame st f = st) ∧
    (∀ (st : ConsumerState) (f : List Char) (fs : List (List Char)),
      processFrame st f = st →
      List.foldl processFrame st (f :: fs) = List.foldl processFrame st fs) := by
  refine ⟨?_, ?_, ?_⟩
  · intro st f h
    simp [processFrame, h]
  · intro st f h1 h2
    simp [processFrame, h1, h2]
  · intro st f fs h
    rw [List.foldl_cons, h]

/-- Witness for C7: a bare `event: end` line and a malformed data frame are
both dropped with the state untouched, and the fold over a stream starting
with either one continues with the remaining frames. -/
theorem c7_frame_drop_semantics_witness :
    dataMarked (jsTrim frameEventEnd) = false ∧
    processFrame stWitness frameEventEnd = stWitness ∧
    dataMarked (jsTrim frameBadJson) = true ∧
    parseJson (stripDataMarker (jsTrim frameBadJson)) = none ∧
    processFrame stWitness frameBadJson = stWitness ∧
    List.foldl processFrame stWitness [frameBadJson, frameGoodJson] =
      List.foldl processFrame stWitness [frameGoodJson] ∧
    (List.foldl processFrame stWitness [frameBadJson, frameGoodJson]).transcript = "Janeok" :=
  ⟨rfl, c7_frame_drop_semantics.1 stWitness frameEventEnd rfl, rfl, rfl,
    c7_frame_drop_semantics.2.1 stWitness frameBadJson rfl rfl,
    c7_frame_drop_semantics.2.2 stWitness frameBadJson [frameGoodJson]
      (c7_frame_drop_semantics.2.1 stWitness frameBadJson rfl rfl), rfl⟩

/-- C8: cancelling an in-progress stream surfaces as an AbortError in the
read loop's catch branch, which records no error; the accumulated consumer
state is exactly the state of the chunks already delivered (nothing is
cleared), and the loop reaches the finally branch, clearing the streaming
flag. -/
theorem c8_cancellation_preserves_state (delivered : List (List Char)) (msg : String) :
    (runStreamSession delivered (.exn "AbortError" msg)).error = none ∧
    (runStreamSession delivered (.exn "AbortError" msg)).consumer =
      (runStreamSession delivered .completed).consumer ∧
    (runStreamSession delivered (.exn "AbortError" msg)).isStreaming = false := by
  refine ⟨?_, rfl, rfl⟩
  simp [runStreamSession, catchToError]

/-- C9 (code bug): the claim says starting a new streaming session cancels
the prior session's controller before proceeding; in the code `startStream`
only overwrites `controllerRef` (only `stopStream` ever calls abort), so
after a second start the first session's controller is un-aborted and both
read loops are active. -/
theorem c9_start_stream_no_abort_bug :
    (startStreamStep (startStreamStep appInit)).abortedIds = [] ∧
    activeLoops (startStreamStep (startStreamStep appInit)) = [1, 0] ∧
    (startStreamStep (startStreamStep appInit)).activeRef = some 1 :=
  ⟨rfl, rfl, rfl⟩

/-- C10: the extraction heuristic decides priority by string-typed presence,
not by non-emptiness: any payload whose top-level `delta` is the empty
string extracts to the empty string even when later-priority shapes carry
non-empty text, and a `message` event with such a payload appends nothing
to the transcript. -/
theorem c10_empty_delta_priority :
    (∀ p : JsValue, jsGet p "delta" = .str "" → extractTextFromPayload p = "") ∧
    (∀ (st : ConsumerState) (evt : JsValue),
      jsGet (jsGet evt "payload") "delta" = .str "" →
      (processEvent st evt).transcript = st.transcript) := by
  have hfirst : ∀ p : JsValue, jsGet p "delta" = .str "" → extractTextFromPayload p = "" := by
    intro p h
    cases p <;> simp_all [jsGet, extractTextFromPayload, jsIsObjectType]
  refine ⟨hfirst, ?_⟩
  intro st evt h
  cases evt with
  | obj fs =>
    have hpay : extractTextFromPayload (jsGet (JsValue.obj fs) "payload") = "" := hfirst _ h
    simp only [processEvent, jsIsNullish, Bool.false_eq_true, if_false, hpay]
    split <;> split <;> rfl
  | undef => simp [jsGet] at h
  | null => simp [jsGet] at h
  | bool b => simp [jsGet] at h
  | num n => simp [jsGet] at h
  | str s => simp [jsGet] at h
  | arr xs => simp [jsGet] at h

/-- Witness for C10: a payload with empty `delta` but non-empty `text` and
`data.text` extracts to the empty string, and a message event carrying it
leaves a non-empty transcript unchanged. -/
theorem c10_empty_delta_priority_witness :
    jsGet emptyDeltaPayload "delta" = .str "" ∧
    extractTextFromPayload emptyDeltaPayload = "" ∧
    jsGet (jsGet emptyDeltaEvtWitness "payload") "delta" = .str "" ∧
    (processEvent stWitness emptyDeltaEvtWitness).transcript = stWitness.transcript :=
  ⟨rfl, c10_empty_delta_priority.1 emptyDeltaPayload rfl, rfl,
    c10_empty_delta_priority.2 stWitness emptyDeltaEvtWitness rfl⟩

/-- The code's third attempt guard (`payload.data` truthy with a
string-typed `payload.data.text`) coincides with the specification's
wording (a string `text` under a `data` object): on every value the two
read the same field or both fall through. -/
theorem dataStep_eq (v : JsValue) :
    (if jsTruthy v then jsGet v "text" else .undef) =
      (match v with | .obj fs => objFind fs "text" | _ => .undef) := by
  cases v <;> simp [jsTruthy, jsGet, ite_self]

/-- C2: the text-extraction heuristic is a total function returning the
first applicable of: a top-level string `delta`; else a top-level string
`text`; else a string `text` under a `data` object; else the non-empty
concatenation of the string `text` fields of the content blocks at
`response.output[0].content`; else the empty string — and it agrees with
the specification's example table. -/
theorem c2_extract_text_heuristic :
    (∀ p : JsValue, extractTextFromPayload p = specFirstApplicable p) ∧
    extractTextFromPayload (.obj (.cons "delta" (.str "ab") .nil)) = "ab" ∧
    extractTextFromPayload (.obj (.cons "text" (.str "cd") .nil)) = "cd" ∧
    extractTextFromPayload
      (.obj (.cons "data" (.obj (.cons "text" (.str "ef") .nil)) .nil)) = "ef" ∧
    extractTextFromPayload
      (.obj (.cons "response" (.obj (.cons "output" (.arr (.cons
        (.obj (.cons "content" (.arr (.cons (.obj (.cons "text" (.str "g") .nil))
          (.cons (.obj (.cons "text" (.str "h") .nil)) .nil))) .nil)) .nil)) .nil)) .nil)) =
      "gh" ∧
    extractTextFromPayload (.obj .nil) = "" ∧
    extractTextFromPayload .null = "" := by
  refine ⟨?_, rfl, rfl, rfl, rfl, rfl, rfl⟩
  intro p
  cases p with
  | undef => rfl
  | null => rfl
  | bool b => rfl
  | num n => rfl
  | str s => rfl
  | arr xs =>
    simp [extractTextFromPayload, specFirstApplicable, jsIsObjectType, jsGet,
      contentBlocksText, jsTruthy]
  | obj fs =>
    simp only [extractTextFromPayload, specFirstApplicable, jsIsObjectType, not_true,
      Bool.true_eq_false, if_false, contentBlocksText]
    rw [dataStep_eq]

/-- C3: `extractJsonFromResponse` tries exactly three attempts in order —
(a) JSON-parse the aggregated `output_text` field when truthy, (b) return
the embedded JSON of the structured content at `output[0].content[0]` when
its type tag is `output_json`, (c) serialize the whole response and parse
the brace-delimited run anchored at the end of the serialization — and it
returns null exactly when no attempt produces a value; being a total
function of the model, it propagates no parse exception. -/
theorem c3_extraction_three_attempts :
    (∀ r : JsValue, extractJsonFromResponse r =
      jsValueOfOpt (((attemptOutputText r).orElse (fun _ => attemptStructuredJson r)).orElse
        (fun _ => attemptTrailingJson r))) ∧
    (∀ r : JsValue, attemptOutputText r = none → attemptStructuredJson r = none →
      attemptTrailingJson r = none → extractJsonFromResponse r = .null) := by
  have hmain : ∀ r : JsValue, extractJsonFromResponse r =
      jsValueOfOpt (((attemptOutputText r).orElse (fun _ => attemptStructuredJson r)).orElse
        (fun _ => attemptTrailingJson r)) := by
    intro r
    by_cases hn : jsIsNullish r = true
    · cases r <;> first | rfl | simp [jsIsNullish] at hn
    · unfold extractJsonFromResponse attemptOutputText attemptStructuredJson attemptTrailingJson
      rw [if_neg hn]
      cases hA : (if jsTruthy (jsGet r "output_text") then
          parseJson (jsStringCoerce (jsGet r "output_text")).data else none) with
      | some v =>
        simp only [hA]
        rfl
      | none =>
        simp only [hA]
        by_cases hB : jsStrEq (jsGet (outputContentZero r) "type") "output_json" = true
        · simp only [hB, if_true]
          rfl
        · simp only [eq_false hB, if_false]
          cases hS : jsonStringifyVal r with
          | none => rfl
          | some raw =>
            simp only [hS]
            cases hT : trailingBraceMatch raw with
            | none => rfl
            | some l =>
              simp only [hT]
              cases hP : parseJson l with
              | none => rfl
              | some v => rfl
  refine ⟨hmain, ?_⟩
  intro r hA hB hC
  rw [hmain r, hA, hB, hC]
  rfl

/-- Witness for C3: on a bare string response all three attempts fail (no
`output_text` property, no structured content, and the serialization of a
string ends in a quote, not a brace), and extraction returns null. -/
theorem c3_extraction_three_attempts_witness :
    attemptOutputText (.str "hello") = none ∧
    attemptStructuredJson (.str "hello") = none ∧
    attemptTrailingJson (.str "hello") = none ∧
    extractJsonFromResponse (.str "hello") = .null :=
  ⟨rfl, rfl, rfl, c3_extraction_three_attempts.2 (.str "hello") rfl rfl rfl⟩
